import Mathlib

/-! Verification development for `src/mcp_server_dwave/server.py`: the
in-memory D-Wave problem registry (`DWaveServer` with its six operations)
and the tool dispatcher `call_tool` of `serve`.

Modelling conventions, stated once:
* Python dictionaries are insertion-ordered association lists; `dictGet`
  is lookup / `k in d`, `dictInsert` is `d[k] = v` (replace in place when
  the key exists, append otherwise).
* `str(uuid.uuid4())` is modelled by the counter `nextUuid` of the state:
  identifiers are naturals drawn in order, so every draw is fresh (uuid4
  collisions are assumed impossible).
* Python floats are rationals; coefficient values arrive as numbers, so
  the `float(v)` coercion is the identity here.
* A Python function that can raise returns `Except String`; the message
  strings follow the source where a claim inspects them and are
  abbreviated stand-ins for Python's built-in messages otherwise. -/

def dictGet {α β : Type} [DecidableEq α] : List (α × β) → α → Option β
  | [], _ => none
  | (k0, v) :: rest, k => if k0 = k then some v else dictGet rest k

def dictInsert {α β : Type} [DecidableEq α] : List (α × β) → α → β → List (α × β)
  | [], k, v => [(k, v)]
  | (k0, v0) :: rest, k, v =>
      if k0 = k then (k, v) :: rest else (k0, v0) :: dictInsert rest k v

/-- The numeric value of an ASCII decimal digit, `none` for any other
character. -/
def digitVal (c : Char) : Option Nat :=
  if c.isDigit then some (c.toNat - 48) else none

/-- A nonempty all-digit character run read as a natural number, the way
Python `int` reads the digit body of a decimal literal. -/
def parseNatDigits : List Char → Option Nat
  | [] => none
  | cs =>
      cs.foldl (fun acc c => acc.bind fun n => (digitVal c).map fun d => n * 10 + d)
        (some 0)

/-- Python `int(s)`: surrounding whitespace stripped, an optional sign,
then a nonempty digit run. (Underscore grouping and non-ASCII digits,
which Python also accepts, are not modelled; no claim uses them.) -/
def pyParseInt (cs : List Char) : Option Int :=
  match ((cs.dropWhile Char.isWhitespace).reverse.dropWhile Char.isWhitespace).reverse with
  | [] => none
  | c :: rest =>
      if c = '-' then (parseNatDigits rest).map fun n => -(Int.ofNat n)
      else if c = '+' then (parseNatDigits rest).map fun n => Int.ofNat n
      else (parseNatDigits (c :: rest)).map fun n => Int.ofNat n

def isParenChar (c : Char) : Bool := c = '(' || c = ')'

/-- Python `s.strip("()")`: every leading and trailing parenthesis
character removed. -/
def stripParens (cs : List Char) : List Char :=
  ((cs.dropWhile isParenChar).reverse.dropWhile isParenChar).reverse

/-- Python `s.split(",")`. -/
def splitComma : List Char → List (List Char)
  | [] => [[]]
  | c :: rest =>
      if c = ',' then [] :: splitComma rest
      else
        match splitComma rest with
        | [] => [[c]]
        | g :: gs => (c :: g) :: gs

/-- A key of the wire-level `Q` (or `J`) dictionary: a string, a native
integer pair, or a bare integer. -/
inductive QKey where
  | str : String → QKey
  | pair : Int → Int → QKey
  | int : Int → QKey
  deriving DecidableEq, Repr

/-- A key of `formatted_Q` after the normalization loop: comma strings
have become integer pairs; every other key passed through unchanged. -/
inductive FKey where
  | pair : Int → Int → FKey
  | str : String → FKey
  | int : Int → FKey
  deriving DecidableEq, Repr

/-- `stripped = k.strip("()")` then `i, j = map(int, stripped.split(","))`:
succeeds exactly when the split yields two parts and both parse as
integers (Python raises ValueError otherwise; the two distinct built-in
messages are collapsed into stand-ins, no claim reads them). -/
def commaPairOfString (s : String) : Except String (Int × Int) :=
  match splitComma (stripParens s.toList) with
  | [a, b] =>
      match pyParseInt a, pyParseInt b with
      | some i, some j => .ok (i, j)
      | _, _ => .error "invalid literal for int with base 10"
  | _ => .error "wrong number of values to unpack"

/-- One key through the loop body of `create_qubo` (`create_ising` uses
the same loop for `J`): a string containing a comma is stripped of
parentheses and parsed as an integer pair; every other key passes
through. -/
def normalizeQKey : QKey → Except String FKey
  | .str s =>
      if s.toList.contains ',' then
        (commaPairOfString s).map fun p => FKey.pair p.1 p.2
      else .ok (.str s)
  | .pair i j => .ok (.pair i j)
  | .int n => .ok (.int n)

/-- The `formatted_Q` loop with `acc` the dictionary built so far. -/
def formatQAux (acc : List (FKey × Rat)) :
    List (QKey × Rat) → Except String (List (FKey × Rat))
  | [] => .ok acc
  | (k, v) :: rest =>
      match normalizeQKey k with
      | .error e => .error e
      | .ok fk => formatQAux (dictInsert acc fk v) rest

def formatQ (Q : List (QKey × Rat)) : Except String (List (FKey × Rat)) :=
  formatQAux [] Q

/-- A key of the wire-level `h` dictionary of `create_ising`. -/
inductive HKey where
  | str : String → HKey
  | int : Int → HKey
  deriving DecidableEq, Repr

/-- `int(i) if isinstance(i, str) else i` on one key of `h`. -/
def coerceHKey : HKey → Except String Int
  | .str s =>
      match pyParseInt s.toList with
      | some n => .ok n
      | none => .error "invalid literal for int with base 10"
  | .int n => .ok n

/-- The `formatted_h` comprehension of `create_ising`. -/
def formatHAux (acc : List (Int × Rat)) :
    List (HKey × Rat) → Except String (List (Int × Rat))
  | [] => .ok acc
  | (k, v) :: rest =>
      match coerceHKey k with
      | .error e => .error e
      | .ok ik => formatHAux (dictInsert acc ik v) rest

def formatH (h : List (HKey × Rat)) : Except String (List (Int × Rat)) :=
  formatHAux [] h

/-- An index produced by unpacking a normalized key in the
`num_variables` comprehensions: an integer from a pair key, a character
when Python unpacks a two-character string. -/
inductive Idx where
  | int : Int → Idx
  | char : Char → Idx
  deriving DecidableEq, Repr

/-- Python `i, j = k` on one key of `formatted_Q`: a pair unpacks to its
components, a string of length exactly two to its two characters, and
every other key raises. -/
def unpackKey : FKey → Option (Idx × Idx)
  | .pair i j => some (.int i, .int j)
  | .str s =>
      match s.toList with
      | [a, b] => some (.char a, .char b)
      | _ => none
  | .int _ => none

def unpackAll : List (FKey × Rat) → Option (List (Idx × Idx))
  | [] => some []
  | p :: rest =>
      match unpackKey p.1, unpackAll rest with
      | some ij, some l => some (ij :: l)
      | _, _ => none

/-- `len(set([i for i, j in keys] + [j for i, j in keys]))`: both
comprehensions unpack every key (any failure raises the whole call), then
the distinct indices are counted. -/
def numVariables (fq : List (FKey × Rat)) : Except String Nat :=
  match unpackAll fq with
  | none => .error "cannot unpack non-sequence key"
  | some ps => .ok ((ps.map Prod.fst ++ ps.map Prod.snd).dedup.length)

structure ServerConfig where
  use_simulator : Bool
  simulator_type : String
  deriving DecidableEq, Repr

/-- `ServerConfig(use_simulator)`: `simulator_type` starts as `"dwave"`. -/
def ServerConfig.init (use_simulator : Bool) : ServerConfig :=
  { use_simulator := use_simulator, simulator_type := "dwave" }

/-- The type-specific coefficient fields of a stored problem record. -/
inductive ProblemData where
  | qubo : List (FKey × Rat) → ProblemData
  | ising : List (Int × Rat) → List (FKey × Rat) → ProblemData
  deriving DecidableEq, Repr

/-- The `"type"` field the source stores alongside the coefficients. -/
def ProblemData.ptype : ProblemData → String
  | .qubo _ => "qubo"
  | .ising _ _ => "ising"

structure Problem where
  problem_id : Nat
  pdata : ProblemData
  description : String
  deriving DecidableEq, Repr

structure ResultRec where
  result_id : Nat
  problem_id : Nat
  energy : Rat
  solution : List (String × Int)
  qpu_access_time : Rat
  execution_time : Rat
  total_annealing_time : Rat
  status : String
  deriving DecidableEq, Repr

structure DWaveServer where
  config : ServerConfig
  problems : List (Nat × Problem)
  results : List (Nat × ResultRec)
  nextUuid : Nat
  deriving DecidableEq, Repr

structure StatusReply where
  use_simulator : Bool
  simulator_type : String
  using_simulator : Bool
  quantum_hardware_available : Bool
  deriving DecidableEq, Repr

structure ConfigReply where
  use_simulator : Bool
  simulator_type : String
  updated : Bool
  deriving DecidableEq, Repr

structure ProblemSummary where
  problem_id : Nat
  ptype : String
  description : String
  num_variables : Nat
  deriving DecidableEq, Repr

structure AnnealingStatus where
  min_annealing_time_ns : Nat
  max_annealing_time_ns : Nat
  current_annealing_time_ns : Nat
  total_annealing_time_ns : Nat
  time_limit : Rat
  total_annealing_time : Rat
  remaining_time : Rat
  deriving DecidableEq, Repr

def get_simulator_status (s : DWaveServer) : StatusReply :=
  { use_simulator := s.config.use_simulator
    simulator_type := s.config.simulator_type
    using_simulator := s.config.use_simulator
    quantum_hardware_available := false }

def invalidSimulatorTypeMsg (t : String) : String :=
  "Invalid simulator_type: " ++ t ++ ". Must be 'dwave' or 'neal'."

def set_simulator_config (s : DWaveServer) (use_simulator : Bool)
    (simulator_type : String) : DWaveServer × Except String ConfigReply :=
  if simulator_type ∉ ["dwave", "neal"] then
    (s, .error (invalidSimulatorTypeMsg simulator_type))
  else
    ({ s with config :=
        { use_simulator := use_simulator, simulator_type := simulator_type } },
     .ok { use_simulator := use_simulator, simulator_type := simulator_type,
           updated := true })

/-- `create_qubo`: draw a fresh id, normalize the keys of `Q` (raising
before any store on a malformed comma string), store the problem, then
build the summary; the `num_variables` computation can itself raise, and
that happens after the store. -/
def create_qubo (s : DWaveServer) (Q : List (QKey × Rat)) (description : String) :
    DWaveServer × Except String ProblemSummary :=
  let problem_id := s.nextUuid
  match formatQ Q with
  | .error e => ({ s with nextUuid := s.nextUuid + 1 }, .error e)
  | .ok fq =>
      let problem : Problem :=
        { problem_id := problem_id, pdata := .qubo fq, description := description }
      let s1 : DWaveServer :=
        { s with problems := dictInsert s.problems problem_id problem,
                 nextUuid := s.nextUuid + 1 }
      match numVariables fq with
      | .error e => (s1, .error e)
      | .ok nv =>
          (s1, .ok { problem_id := problem_id, ptype := "qubo",
                     description := description, num_variables := nv })

/-- `create_ising`: coerce the keys of `h`, normalize the keys of `J`
(either raising before any store), store the problem and return the
summary with `num_variables = len(formatted_h)`. -/
def create_ising (s : DWaveServer) (h : List (HKey × Rat)) (J : List (QKey × Rat))
    (description : String) : DWaveServer × Except String ProblemSummary :=
  let problem_id := s.nextUuid
  match formatH h with
  | .error e => ({ s with nextUuid := s.nextUuid + 1 }, .error e)
  | .ok fh =>
      match formatQ J with
      | .error e => ({ s with nextUuid := s.nextUuid + 1 }, .error e)
      | .ok fJ =>
          let problem : Problem :=
            { problem_id := problem_id, pdata := .ising fh fJ,
              description := description }
          ({ s with problems := dictInsert s.problems problem_id problem,
                    nextUuid := s.nextUuid + 1 },
           .ok { problem_id := problem_id, ptype := "ising",
                 description := description, num_variables := fh.length })

def problemNotFoundMsg (pid : Nat) : String :=
  "Problem ID " ++ toString pid ++ " not found"

/-- `{str(var): 0 for var in range(5)}` then `solution["0"] = 1',
`solution["2"] = 1`. -/
def quboMockSolution : List (String × Int) :=
  dictInsert (dictInsert ((List.range 5).map fun v => (toString v, (0 : Int))) "0" 1)
    "2" 1

/-- `{str(var): -1 for var in range(5)}` then `solution["0"] = 1`,
`solution["3"] = 1`. -/
def isingMockSolution : List (String × Int) :=
  dictInsert (dictInsert ((List.range 5).map fun v => (toString v, (-1 : Int))) "0" 1)
    "3" 1

/-- `solve_problem`. The parameters `num_reads` and `annealing_time` are
bound by the Python signature, so `kwargs.get("num_reads", 100)` in the
`total_annealing_time` expression always yields the default 100 (a call
cannot also place `num_reads` into `**kwargs`); neither parameter occurs
anywhere else in the body, so neither occurs in the body here. -/
def solve_problem (s : DWaveServer) (problem_id num_reads annealing_time : Nat) :
    DWaveServer × Except String ResultRec :=
  match dictGet s.problems problem_id with
  | none => (s, .error (problemNotFoundMsg problem_id))
  | some p =>
      let result_id := s.nextUuid
      let solution :=
        match p.pdata with
        | .qubo _ => quboMockSolution
        | .ising _ _ => isingMockSolution
      let r : ResultRec :=
        { result_id := result_id, problem_id := problem_id,
          energy := (-1.5 : Rat), solution := solution,
          qpu_access_time := (0.05 : Rat), execution_time := (0.05 : Rat),
          total_annealing_time := (0.05 : Rat) * ((100 : Rat) / (1000 : Rat)),
          status := "COMPLETED" }
      ({ s with results := dictInsert s.results result_id r,
                nextUuid := s.nextUuid + 1 },
       .ok r)

def get_annealing_time_status : AnnealingStatus :=
  { min_annealing_time_ns := 200, max_annealing_time_ns := 2000,
    current_annealing_time_ns := 500, total_annealing_time_ns := 500,
    time_limit := (0.1 : Rat), total_annealing_time := 0,
    remaining_time := (0.1 : Rat) - 0 }

/-- The `arguments` dictionary of a tool call, restricted to the keys the
dispatcher reads: a `none` field is an absent key. -/
structure ToolArgs where
  use_simulator : Option Bool
  simulator_type : Option String
  Q : Option (List (QKey × Rat))
  h : Option (List (HKey × Rat))
  J : Option (List (QKey × Rat))
  description : Option String
  problem_id : Option Nat
  deriving DecidableEq, Repr

inductive ToolResult where
  | status : StatusReply → ToolResult
  | config : ConfigReply → ToolResult
  | summary : ProblemSummary → ToolResult
  | solved : ResultRec → ToolResult
  | annealing : AnnealingStatus → ToolResult
  deriving DecidableEq, Repr

/-- The `except` clause of `call_tool`: every raised failure is re-wrapped
in a uniform envelope. -/
def wrapError {α : Type} : Except String α → Except String α
  | .ok v => .ok v
  | .error e => .error ("Error processing D-Wave server query: " ++ e)

/-- The dispatcher `call_tool` of `serve`: required-argument presence
checks, `arguments.get` defaults, the Registry call, and the uniform
error envelope. Serialization of the successful result to JSON text is
out of model; the result value itself is returned. -/
def call_tool (s : DWaveServer) (name : String) (args : ToolArgs) :
    DWaveServer × Except String ToolResult :=
  let out : DWaveServer × Except String ToolResult :=
    if name = "get_simulator_status" then
      (s, .ok (.status (get_simulator_status s)))
    else if name = "set_simulator_config" then
      let u := args.use_simulator.getD true
      let t := args.simulator_type.getD "dwave"
      let p := set_simulator_config s u t
      (p.1, p.2.map ToolResult.config)
    else if name = "create_qubo" then
      match args.Q with
      | none => (s, .error "Missing required parameter: Q")
      | some Q =>
          let p := create_qubo s Q (args.description.getD "")
          (p.1, p.2.map ToolResult.summary)
    else if name = "create_ising" then
      match args.h, args.J with
      | some hh, some JJ =>
          let p := create_ising s hh JJ (args.description.getD "")
          (p.1, p.2.map ToolResult.summary)
      | _, _ => (s, .error "Missing required parameters: h and J")
    else if name = "solve_problem" then
      match args.problem_id with
      | none => (s, .error "Missing required parameter: problem_id")
      | some pid =>
          let p := solve_problem s pid 100 20
          (p.1, p.2.map ToolResult.solved)
    else if name = "get_annealing_time_status" then
      (s, .ok (.annealing get_annealing_time_status))
    else (s, .error ("Unknown tool: " ++ name))
  (out.1, wrapError out.2)

/-- The state `serve` starts from: `DWaveServer(ServerConfig(True))`. -/
def initServer : DWaveServer :=
  { config := ServerConfig.init true, problems := [], results := [], nextUuid := 0 }

def runCalls : DWaveServer → List (String × ToolArgs) → DWaveServer
  | s, [] => s
  | s, (n, a) :: rest => runCalls (call_tool s n a).1 rest

/-- The integer indices a normalized coefficient map mentions: both
positions of every pair key. -/
def quboIndexList : List (FKey × Rat) → List Int
  | [] => []
  | (FKey.pair i j, _) :: rest => i :: j :: quboIndexList rest
  | _ :: rest => quboIndexList rest

/-- Decimal rendering of a natural number (digit characters only). -/
def renderNat (n : Nat) : List Char :=
  if n = 0 then ['0'] else ((Nat.digits 10 n).map Nat.digitChar).reverse

def renderInt (i : Int) : List Char :=
  if i < 0 then '-' :: renderNat i.natAbs else renderNat i.natAbs

/-- The textual key `"i,j"`. -/
def textKey (i j : Int) : String :=
  String.mk (renderInt i ++ [','] ++ renderInt j)

/-- The textual key `"(i,j)"`. -/
def textKeyParen (i j : Int) : String :=
  String.mk ('(' :: (renderInt i ++ [','] ++ renderInt j) ++ [')'])

/-! ## Dictionary lemmas -/

theorem dictGet_insert {α β : Type} [DecidableEq α] (d : List (α × β)) (k k' : α)
    (v : β) :
    dictGet (dictInsert d k v) k' = if k = k' then some v else dictGet d k' := by
  induction d with
  | nil => simp [dictInsert, dictGet]
  | cons p rest ih =>
      obtain ⟨k0, v0⟩ := p
      by_cases h0 : k0 = k
      · subst h0
        by_cases h1 : k0 = k'
        · subst h1; simp [dictInsert, dictGet]
        · simp [dictInsert, dictGet, h1]
      · by_cases h1 : k0 = k'
        · subst h1
          have : k ≠ k0 := fun h => h0 h.symm
          simp [dictInsert, dictGet, h0, this]
        · simp [dictInsert, dictGet, h0, h1, ih]

theorem mem_dictInsert {α β : Type} [DecidableEq α] (d : List (α × β)) (k : α)
    (v : β) (p : α × β) (hp : p ∈ dictInsert d k v) : p = (k, v) ∨ p ∈ d := by
  induction d with
  | nil => simpa [dictInsert] using hp
  | cons q rest ih =>
      obtain ⟨k0, v0⟩ := q
      by_cases h0 : k0 = k
      · subst h0
        simp only [dictInsert, if_pos rfl] at hp
        rcases List.mem_cons.mp hp with h | h
        · exact Or.inl h
        · exact Or.inr (List.mem_cons.mpr (Or.inr h))
      · simp only [dictInsert, if_neg h0] at hp
        rcases List.mem_cons.mp hp with h | h
        · exact Or.inr (List.mem_cons.mpr (Or.inl h))
        · rcases ih h with h' | h'
          · exact Or.inl h'
          · exact Or.inr (List.mem_cons.mpr (Or.inr h'))

theorem keys_dictInsert_of_not_mem {α β : Type} [DecidableEq α] (d : List (α × β))
    (k : α) (v : β) (hk : k ∉ d.map Prod.fst) :
    (dictInsert d k v).map Prod.fst = d.map Prod.fst ++ [k] := by
  induction d with
  | nil => simp [dictInsert]
  | cons q rest ih =>
      obtain ⟨k0, v0⟩ := q
      simp only [List.map_cons, List.mem_cons] at hk
      push_neg at hk
      have h0 : k0 ≠ k := fun h => hk.1 h.symm
      simp [dictInsert, h0, ih hk.2]

theorem length_dictInsert_of_not_mem {α β : Type} [DecidableEq α] (d : List (α × β))
    (k : α) (v : β) (hk : k ∉ d.map Prod.fst) :
    (dictInsert d k v).length = d.length + 1 := by
  have := keys_dictInsert_of_not_mem d k v hk
  have hlen := congrArg List.length this
  simpa using hlen

/-! ## C4: solve_problem fails exactly on absent ids -/

/-- A concrete registry state holding one stored QUBO problem, for
witnesses. -/
def sampleProblem : Problem :=
  { problem_id := 0, pdata := .qubo [(FKey.pair 0 1, 2)], description := "" }

def sampleState : DWaveServer :=
  { config := ServerConfig.init true, problems := [(0, sampleProblem)],
    results := [], nextUuid := 1 }

/-- C4: `solve_problem` fails with the not-found error exactly when the
id is absent from the problem map, leaving the whole state unchanged; on
a present id it always succeeds with a result whose `problem_id` echoes
the input and whose `status` is `"COMPLETED"`. -/
theorem solve_problem_not_found_spec (s : DWaveServer) (pid nr ta : Nat) :
    (dictGet s.problems pid = none →
        solve_problem s pid nr ta = (s, .error (problemNotFoundMsg pid))) ∧
    (∀ p, dictGet s.problems pid = some p →
        ∃ r, (solve_problem s pid nr ta).2 = .ok r ∧
          r.problem_id = pid ∧ r.status = "COMPLETED") := by
  constructor
  · intro h
    simp [solve_problem, h]
  · intro p h
    simp only [solve_problem, h]
    exact ⟨_, rfl, rfl, rfl⟩

/-- C4 witness: at the concrete state `sampleState`, id 7 is absent and
fails, id 0 is present and succeeds as stated. -/
theorem solve_problem_not_found_spec_witness :
    (solve_problem sampleState 7 100 20 =
        (sampleState, .error (problemNotFoundMsg 7))) ∧
    ∃ r, (solve_problem sampleState 0 100 20).2 = .ok r ∧
      r.problem_id = 0 ∧ r.status = "COMPLETED" :=
  ⟨(solve_problem_not_found_spec sampleState 7 100 20).1 (by decide),
   (solve_problem_not_found_spec sampleState 0 100 20).2 sampleProblem (by decide)⟩

/-! ## C5: num_reads and annealing_time have no effect -/

/-- C5: on one and the same registry state, two `solve_problem` calls
with arbitrary `num_reads`/`annealing_time` pairs agree on every result
field other than the generated `result_id` (energy, solution and all
timing fields included): the tuning arguments have no effect on the
stub. -/
theorem solve_problem_ignores_tuning (s : DWaveServer) (pid : Nat)
    (hp : (dictGet s.problems pid).isSome = true) (nr1 ta1 nr2 ta2 : Nat) :
    ∃ r1 r2, (solve_problem s pid nr1 ta1).2 = .ok r1 ∧
      (solve_problem s pid nr2 ta2).2 = .ok r2 ∧
      r1.problem_id = r2.problem_id ∧ r1.energy = r2.energy ∧
      r1.solution = r2.solution ∧ r1.qpu_access_time = r2.qpu_access_time ∧
      r1.execution_time = r2.execution_time ∧
      r1.total_annealing_time = r2.total_annealing_time ∧
      r1.status = r2.status := by
  rw [Option.isSome_iff_exists] at hp
  obtain ⟨p, hp⟩ := hp
  simp only [solve_problem, hp]
  exact ⟨_, _, rfl, rfl, rfl, rfl, rfl, rfl, rfl, rfl, rfl⟩

/-- C5 witness: the tuning arguments (100, 20) versus (7, 3) at the
concrete state `sampleState`. -/
theorem solve_problem_ignores_tuning_witness :
    ∃ r1 r2, (solve_problem sampleState 0 100 20).2 = .ok r1 ∧
      (solve_problem sampleState 0 7 3).2 = .ok r2 ∧
      r1.problem_id = r2.problem_id ∧ r1.energy = r2.energy ∧
      r1.solution = r2.solution ∧ r1.qpu_access_time = r2.qpu_access_time ∧
      r1.execution_time = r2.execution_time ∧
      r1.total_annealing_time = r2.total_annealing_time ∧
      r1.status = r2.status :=
  solve_problem_ignores_tuning sampleState 0 (by decide) 100 20 7 3

/-! ## C6: set_simulator_config validation -/

/-- C6: `set_simulator_config` fails with the invalid-argument error
exactly when the type is neither `"dwave"` nor `"neal"`; on success it
stores both values, replies `updated = true`, and a subsequent
`get_simulator_status` reads back exactly the stored pair. -/
theorem set_simulator_config_spec (s : DWaveServer) (u : Bool) (t : String) :
    (t ≠ "dwave" ∧ t ≠ "neal" →
        set_simulator_config s u t = (s, .error (invalidSimulatorTypeMsg t))) ∧
    (t = "dwave" ∨ t = "neal" →
        ∃ s1, set_simulator_config s u t =
            (s1, .ok { use_simulator := u, simulator_type := t, updated := true }) ∧
          s1.config.use_simulator = u ∧ s1.config.simulator_type = t ∧
          get_simulator_status s1 =
            { use_simulator := u, simulator_type := t, using_simulator := u,
              quantum_hardware_available := false }) := by
  constructor
  · intro h
    simp [set_simulator_config, h.1, h.2]
  · intro h
    rcases h with h | h <;> subst h <;>
      simp only [set_simulator_config, get_simulator_status] <;>
      rw [if_neg (by decide)] <;>
      exact ⟨_, rfl, rfl, rfl, rfl⟩

/-- C6 witness: `"quantum"` is rejected; `"neal"` is stored and read
back. -/
theorem set_simulator_config_spec_witness :
    (set_simulator_config sampleState true "quantum" =
        (sampleState, .error (invalidSimulatorTypeMsg "quantum"))) ∧
    ∃ s1, set_simulator_config sampleState false "neal" =
        (s1, .ok { use_simulator := false, simulator_type := "neal", updated := true }) ∧
      s1.config.use_simulator = false ∧ s1.config.simulator_type = "neal" ∧
      get_simulator_status s1 =
        { use_simulator := false, simulator_type := "neal", using_simulator := false,
          quantum_hardware_available := false } :=
  ⟨(set_simulator_config_spec sampleState true "quantum").1 (by decide),
   (set_simulator_config_spec sampleState false "neal").2 (Or.inr rfl)⟩

/-! ## C1: required-argument validation in the dispatcher -/

/-- An `arguments` dictionary with every key absent. -/
def emptyArgs : ToolArgs :=
  { use_simulator := none, simulator_type := none, Q := none, h := none,
    J := none, description := none, problem_id := none }

/-- A registry state whose configuration is `(False, "neal")`. -/
def nealState : DWaveServer :=
  { config := { use_simulator := false, simulator_type := "neal" },
    problems := [], results := [], nextUuid := 0 }

/-- C1 counterexample: `set_simulator_config` invoked through the
dispatcher with both of its required arguments absent does not fail — the
dispatcher fills in the defaults `True` and `"dwave"`, calls the
Registry, the call succeeds, and the configuration is overwritten. -/
theorem call_tool_missing_config_args_succeed :
    (call_tool nealState "set_simulator_config" emptyArgs).2 =
        .ok (.config { use_simulator := true, simulator_type := "dwave",
                       updated := true }) ∧
    (call_tool nealState "set_simulator_config" emptyArgs).1.config ≠
      nealState.config := by
  constructor
  · rfl
  · decide

/-- C1 amended: for the three dispatcher operations that do check their
required arguments — `create_qubo` (`Q`), `create_ising` (`h`, `J`) and
`solve_problem` (`problem_id`) — an absent required argument fails with
the invalid-request envelope before any Registry call, the state
unchanged; `set_simulator_config` is excluded (see the counterexample). -/
theorem call_tool_missing_required_args (s : DWaveServer) (args : ToolArgs) :
    (args.Q = none →
        call_tool s "create_qubo" args =
          (s, .error
            "Error processing D-Wave server query: Missing required parameter: Q")) ∧
    ((args.h = none ∨ args.J = none) →
        call_tool s "create_ising" args =
          (s, .error
            "Error processing D-Wave server query: Missing required parameters: h and J")) ∧
    (args.problem_id = none →
        call_tool s "solve_problem" args =
          (s, .error
            "Error processing D-Wave server query: Missing required parameter: problem_id")) := by
  refine ⟨?_, ?_, ?_⟩
  · intro hQ
    simp [call_tool, hQ, wrapError]
  · intro hhJ
    rcases hhJ with hh | hJ
    · cases hJ : args.J <;> simp [call_tool, hh, hJ, wrapError]
    · cases hh : args.h <;> simp [call_tool, hh, hJ, wrapError]
  · intro hpid
    simp [call_tool, hpid, wrapError]

/-- C1 amended witness: the three checks at the empty argument
dictionary and the concrete state `nealState`. -/
theorem call_tool_missing_required_args_witness :
    (call_tool nealState "create_qubo" emptyArgs =
        (nealState, .error
          "Error processing D-Wave server query: Missing required parameter: Q")) ∧
    (call_tool nealState "create_ising" emptyArgs =
        (nealState, .error
          "Error processing D-Wave server query: Missing required parameters: h and J")) ∧
    (call_tool nealState "solve_problem" emptyArgs =
        (nealState, .error
          "Error processing D-Wave server query: Missing required parameter: problem_id")) :=
  ⟨(call_tool_missing_required_args nealState emptyArgs).1 rfl,
   (call_tool_missing_required_args nealState emptyArgs).2.1 (Or.inl rfl),
   (call_tool_missing_required_args nealState emptyArgs).2.2 rfl⟩

/-! ## C9: sequential creations yield distinct identifiers -/

/-- One problem-creating Registry call. -/
inductive CreateCall where
  | qubo : List (QKey × Rat) → String → CreateCall
  | ising : List (HKey × Rat) → List (QKey × Rat) → String → CreateCall

def runCreate (s : DWaveServer) : CreateCall → DWaveServer × Except String ProblemSummary
  | .qubo Q d => create_qubo s Q d
  | .ising hh J d => create_ising s hh J d

/-- Every successful creation returns the freshly drawn identifier,
advances the draw counter, and stores the problem under that
identifier. -/
theorem runCreate_fresh (s : DWaveServer) (c : CreateCall) (s1 : DWaveServer)
    (r : ProblemSummary) (hc : runCreate s c = (s1, .ok r)) :
    r.problem_id = s.nextUuid ∧ s1.nextUuid = s.nextUuid + 1 ∧
      ∃ prob, s1.problems = dictInsert s.problems s.nextUuid prob := by
  cases c with
  | qubo Q d =>
      simp only [runCreate, create_qubo] at hc
      rcases hfmt : formatQ Q with e | fq <;> rw [hfmt] at hc <;> dsimp only at hc
      · simp at hc
      · rcases hnv : numVariables fq with e | nv <;> rw [hnv] at hc <;>
          dsimp only at hc
        · simp at hc
        · simp only [Prod.mk.injEq, Except.ok.injEq] at hc
          obtain ⟨hs1, hr⟩ := hc
          subst hs1
          subst hr
          exact ⟨rfl, rfl, _, rfl⟩
  | ising hh J d =>
      simp only [runCreate, create_ising] at hc
      rcases hfh : formatH hh with e | fh <;> rw [hfh] at hc <;> dsimp only at hc
      · simp at hc
      · rcases hfJ : formatQ J with e | fJ <;> rw [hfJ] at hc <;> dsimp only at hc
        · simp at hc
        · simp only [Prod.mk.injEq, Except.ok.injEq] at hc
          obtain ⟨hs1, hr⟩ := hc
          subst hs1
          subst hr
          exact ⟨rfl, rfl, _, rfl⟩

/-- C9: two successful problem creations in sequence (each `create_qubo`
or `create_ising`, any arguments, identical ones included) return
distinct `problem_id`s, and the first stored problem is still present,
unchanged, after the second call. -/
theorem runCreate_sequential_ids_distinct (s : DWaveServer) (c1 c2 : CreateCall)
    (s1 s2 : DWaveServer) (r1 r2 : ProblemSummary)
    (h1 : runCreate s c1 = (s1, .ok r1)) (h2 : runCreate s1 c2 = (s2, .ok r2)) :
    r1.problem_id ≠ r2.problem_id ∧
      dictGet s2.problems r1.problem_id = dictGet s1.problems r1.problem_id ∧
      (dictGet s1.problems r1.problem_id).isSome = true := by
  obtain ⟨hid1, hnext1, prob1, hins1⟩ := runCreate_fresh s c1 s1 r1 h1
  obtain ⟨hid2, hnext2, prob2, hins2⟩ := runCreate_fresh s1 c2 s2 r2 h2
  have hne : r1.problem_id ≠ r2.problem_id := by
    rw [hid1, hid2, hnext1]
    omega
  refine ⟨hne, ?_, ?_⟩
  · rw [hins2, dictGet_insert, if_neg]
    rw [hid1, hnext1]
    omega
  · rw [hins1, dictGet_insert, if_pos hid1.symm]
    rfl

def cexCall : CreateCall := .qubo [(QKey.str "0,1", 2)] "a"

def cexS1 : DWaveServer := (runCreate initServer cexCall).1

def cexS2 : DWaveServer := (runCreate cexS1 cexCall).1

def cexR1 : ProblemSummary :=
  { problem_id := 0, ptype := "qubo", description := "a", num_variables := 2 }

def cexR2 : ProblemSummary :=
  { problem_id := 1, ptype := "qubo", description := "a", num_variables := 2 }

/-- C9 witness: two identical `create_qubo` calls in sequence from the
initial state receive the distinct identifiers 0 and 1. -/
theorem runCreate_sequential_ids_distinct_witness :
    cexR1.problem_id ≠ cexR2.problem_id ∧
      dictGet cexS2.problems cexR1.problem_id =
        dictGet cexS1.problems cexR1.problem_id ∧
      (dictGet cexS1.problems cexR1.problem_id).isSome = true :=
  runCreate_sequential_ids_distinct initServer cexCall cexCall cexS1 cexS2 cexR1 cexR2
    rfl rfl

/-! ## C8: results always reference stored problems -/

/-- The reachable-state invariant of C8: every stored result references a
problem present in the problem map. -/
def RegistryInv (s : DWaveServer) : Prop :=
  ∀ rid r, dictGet s.results rid = some r →
    (dictGet s.problems r.problem_id).isSome = true

theorem isSome_dictGet_insert {α β : Type} [DecidableEq α] (d : List (α × β))
    (k k' : α) (v : β) (h : (dictGet d k').isSome = true) :
    (dictGet (dictInsert d k v) k').isSome = true := by
  rw [dictGet_insert]
  by_cases hk : k = k' <;> simp [hk, h]

theorem create_qubo_inv (s : DWaveServer) (Q : List (QKey × Rat)) (d : String)
    (hs : RegistryInv s) : RegistryInv (create_qubo s Q d).1 := by
  unfold create_qubo
  rcases hfmt : formatQ Q with e | fq <;> dsimp only
  · exact hs
  · rcases hnv : numVariables fq with e | nv <;> dsimp only <;>
      intro rid r hr <;>
      exact isSome_dictGet_insert _ _ _ _ (hs rid r hr)

theorem create_ising_inv (s : DWaveServer) (hh : List (HKey × Rat))
    (J : List (QKey × Rat)) (d : String) (hs : RegistryInv s) :
    RegistryInv (create_ising s hh J d).1 := by
  unfold create_ising
  rcases hfh : formatH hh with e | fh <;> dsimp only
  · exact hs
  · rcases hfJ : formatQ J with e | fJ <;> dsimp only
    · exact hs
    · intro rid r hr
      exact isSome_dictGet_insert _ _ _ _ (hs rid r hr)

theorem solve_problem_inv (s : DWaveServer) (pid nr ta : Nat)
    (hs : RegistryInv s) : RegistryInv (solve_problem s pid nr ta).1 := by
  unfold solve_problem
  rcases hp : dictGet s.problems pid with _ | p <;> dsimp only
  · exact hs
  · intro rid r hr
    rw [dictGet_insert] at hr
    by_cases hq : s.nextUuid = rid
    · rw [if_pos hq] at hr
      cases hr
      simp [hp]
    · rw [if_neg hq] at hr
      exact hs rid r hr

theorem set_simulator_config_inv (s : DWaveServer) (u : Bool) (t : String)
    (hs : RegistryInv s) : RegistryInv (set_simulator_config s u t).1 := by
  unfold set_simulator_config
  split
  · exact hs
  · exact hs

theorem call_tool_inv (s : DWaveServer) (n : String) (a : ToolArgs)
    (hs : RegistryInv s) : RegistryInv (call_tool s n a).1 := by
  unfold call_tool
  dsimp only
  split
  · exact hs
  · split
    · exact set_simulator_config_inv s _ _ hs
    · split
      · split
        · exact hs
        · exact create_qubo_inv s _ _ hs
      · split
        · split
          · exact create_ising_inv s _ _ _ hs
          · exact hs
        · split
          · split
            · exact hs
            · exact solve_problem_inv s _ _ _ hs
          · split
            · exact hs
            · exact hs

theorem runCalls_inv (calls : List (String × ToolArgs)) (s : DWaveServer)
    (hs : RegistryInv s) : RegistryInv (runCalls s calls) := by
  induction calls generalizing s with
  | nil => exact hs
  | cons c rest ih =>
      obtain ⟨nm, a⟩ := c
      exact ih _ (call_tool_inv s nm a hs)

/-- C8: in every state reachable from the initial empty registry by any
sequence of dispatcher calls (the six operations with any arguments),
every stored result's `problem_id` is a key of the problem map. -/
theorem registry_results_reference_problems (calls : List (String × ToolArgs)) :
    RegistryInv (runCalls initServer calls) :=
  runCalls_inv calls initServer (fun rid r hr => by simp [dictGet] at hr)

/-! ## C2: num_variables counts distinct indices -/

/-- Every key of a normalized coefficient map is an integer pair. -/
def PairKeys (l : List (FKey × Rat)) : Prop :=
  ∀ p ∈ l, ∃ i j, p.1 = FKey.pair i j

theorem formatQAux_pair_keys (Q : List (QKey × Rat)) (acc : List (FKey × Rat))
    (hacc : PairKeys acc)
    (hQ : ∀ p ∈ Q, ∃ i j, normalizeQKey p.1 = Except.ok (FKey.pair i j)) :
    ∃ fq, formatQAux acc Q = Except.ok fq ∧ PairKeys fq := by
  induction Q generalizing acc with
  | nil => exact ⟨acc, rfl, hacc⟩
  | cons p rest ih =>
      obtain ⟨k, v⟩ := p
      obtain ⟨i, j, hk⟩ := hQ (k, v) (List.mem_cons_self _ _)
      have hacc' : PairKeys (dictInsert acc (FKey.pair i j) v) := by
        intro q hq
        rcases mem_dictInsert _ _ _ _ hq with h | h
        · exact ⟨i, j, by rw [h]⟩
        · exact hacc q h
      have hrest : ∀ p ∈ rest, ∃ i j, normalizeQKey p.1 = Except.ok (FKey.pair i j) :=
        fun p hp => hQ p (List.mem_cons.mpr (Or.inr hp))
      simpa [formatQAux, hk] using ih (dictInsert acc (FKey.pair i j) v) hacc' hrest

theorem unpackAll_indices (fq : List (FKey × Rat)) (hpk : PairKeys fq) :
    ∃ ps, unpackAll fq = some ps ∧
      ∀ x, x ∈ ps.map Prod.fst ++ ps.map Prod.snd ↔
        x ∈ (quboIndexList fq).map Idx.int := by
  induction fq with
  | nil => exact ⟨[], rfl, by simp [quboIndexList]⟩
  | cons p rest ih =>
      obtain ⟨key, v⟩ := p
      obtain ⟨i, j, hkey⟩ := hpk (key, v) (List.mem_cons_self _ _)
      simp only at hkey
      subst hkey
      obtain ⟨ps, hup, hmem⟩ :=
        ih (fun q hq => hpk q (List.mem_cons.mpr (Or.inr hq)))
      refine ⟨(Idx.int i, Idx.int j) :: ps, by simp [unpackAll, unpackKey, hup], ?_⟩
      intro x
      have hx := hmem x
      rw [List.mem_append] at hx
      simp only [quboIndexList, List.map_cons, List.mem_cons, List.mem_append]
      tauto

theorem numVariables_of_pairKeys (fq : List (FKey × Rat)) (hpk : PairKeys fq) :
    numVariables fq = Except.ok (quboIndexList fq).toFinset.card := by
  obtain ⟨ps, hup, hmem⟩ := unpackAll_indices fq hpk
  unfold numVariables
  rw [hup]
  dsimp only
  congr 1
  have h1 : (ps.map Prod.fst ++ ps.map Prod.snd).toFinset =
      ((quboIndexList fq).map Idx.int).toFinset := by
    ext x
    simp only [List.mem_toFinset]
    exact hmem x
  have h2 : ((quboIndexList fq).map Idx.int).toFinset =
      (quboIndexList fq).toFinset.image Idx.int := by
    ext x
    simp
  have hinj : Function.Injective Idx.int := fun a b hab => by injection hab
  calc (ps.map Prod.fst ++ ps.map Prod.snd).dedup.length
      = (ps.map Prod.fst ++ ps.map Prod.snd).toFinset.card :=
        (List.card_toFinset _).symm
    _ = ((quboIndexList fq).map Idx.int).toFinset.card := by rw [h1]
    _ = ((quboIndexList fq).toFinset.image Idx.int).card := by rw [h2]
    _ = (quboIndexList fq).toFinset.card :=
        Finset.card_image_of_injective _ hinj

/-- C2: when every key of `Q` normalizes to an integer pair (native pairs
and comma strings), `create_qubo` succeeds and its `num_variables` is the
number of distinct integer indices occurring in either position of the
normalized keys. -/
theorem create_qubo_num_variables (s : DWaveServer) (Q : List (QKey × Rat))
    (d : String)
    (hQ : ∀ p ∈ Q, ∃ i j, normalizeQKey p.1 = Except.ok (FKey.pair i j)) :
    ∃ fq r, formatQ Q = Except.ok fq ∧ (create_qubo s Q d).2 = Except.ok r ∧
      r.num_variables = (quboIndexList fq).toFinset.card := by
  obtain ⟨fq, hfmt, hpk⟩ := formatQAux_pair_keys Q [] (by intro p hp; simp at hp) hQ
  have hfmt' : formatQ Q = Except.ok fq := hfmt
  have hnv := numVariables_of_pairKeys fq hpk
  have hc : (create_qubo s Q d).2 = Except.ok
      { problem_id := s.nextUuid, ptype := "qubo", description := d,
        num_variables := (quboIndexList fq).toFinset.card } := by
    unfold create_qubo
    rw [hfmt']
    dsimp only
    rw [hnv]
  exact ⟨fq, _, hfmt', hc, rfl⟩

/-- The worked example of C2. -/
def exQ : List (QKey × Rat) := [(.str "0,0", -1), (.str "1,1", -1), (.str "0,1", 2)]

/-- C2 witness: `{"0,0": -1, "1,1": -1, "0,1": 2}` yields
`num_variables = 2`. -/
theorem create_qubo_num_variables_witness :
    (∃ fq r, formatQ exQ = Except.ok fq ∧
      (create_qubo initServer exQ "").2 = Except.ok r ∧
      r.num_variables = (quboIndexList fq).toFinset.card) ∧
    ∃ r, (create_qubo initServer exQ "").2 = Except.ok r ∧ r.num_variables = 2 :=
  ⟨create_qubo_num_variables initServer exQ ""
      (by
        intro p hp
        simp only [exQ, List.mem_cons, List.not_mem_nil, or_false] at hp
        rcases hp with h | h | h <;> subst h <;> exact ⟨_, _, rfl⟩),
   ⟨_, rfl, rfl⟩⟩

/-! ## C3: Ising num_variables equals the entry count of h -/

/-- The coerced keys of `h`, in order (`int(i)` on each key). -/
def coerceAll : List (HKey × Rat) → Except String (List Int)
  | [] => .ok []
  | (k, _) :: rest =>
      match coerceHKey k, coerceAll rest with
      | .ok i, .ok l => .ok (i :: l)
      | .error e, _ => .error e
      | _, .error e => .error e

theorem formatHAux_length (hh : List (HKey × Rat)) (acc : List (Int × Rat))
    (ks : List Int) (hk : coerceAll hh = .ok ks)
    (hnd : (acc.map Prod.fst ++ ks).Nodup) :
    ∃ fh, formatHAux acc hh = .ok fh ∧ fh.length = acc.length + hh.length := by
  induction hh generalizing acc ks with
  | nil =>
      simp only [coerceAll, Except.ok.injEq] at hk
      exact ⟨acc, rfl, by simp⟩
  | cons p rest ih =>
      obtain ⟨k, v⟩ := p
      rcases hck : coerceHKey k with e | i <;>
        rcases hcr : coerceAll rest with e2 | l <;>
        simp [coerceAll, hck, hcr] at hk
      subst hk
      have hdisj := (List.nodup_append.mp hnd).2.2
      have hnotmem : i ∉ acc.map Prod.fst :=
        fun hmem => hdisj hmem (List.mem_cons_self _ _)
      have hkeys := keys_dictInsert_of_not_mem acc i v hnotmem
      have hnd' : ((dictInsert acc i v).map Prod.fst ++ l).Nodup := by
        rw [hkeys, List.append_assoc]
        exact hnd
      obtain ⟨fh, hfh, hlen⟩ := ih (dictInsert acc i v) l hcr hnd'
      refine ⟨fh, by simpa [formatHAux, hck] using hfh, ?_⟩
      rw [hlen, length_dictInsert_of_not_mem acc i v hnotmem]
      simp only [List.length_cons]
      omega

/-- C3: on a valid Ising input whose `h` keys coerce to pairwise distinct
integers (the claim's own caveat: distinct keys coercing to the same
integer would merge), `create_ising` succeeds with `num_variables` equal
to the number of entries of `h`. -/
theorem create_ising_num_variables (s : DWaveServer) (hh : List (HKey × Rat))
    (J : List (QKey × Rat)) (d : String) (ks : List Int) (fJ : List (FKey × Rat))
    (hk : coerceAll hh = Except.ok ks) (hnd : ks.Nodup)
    (hJ : formatQ J = Except.ok fJ) :
    ∃ r, (create_ising s hh J d).2 = Except.ok r ∧
      r.num_variables = hh.length := by
  obtain ⟨fh, hfh, hlen⟩ := formatHAux_length hh [] ks hk (by simpa using hnd)
  have hfh' : formatH hh = Except.ok fh := hfh
  unfold create_ising
  rw [hfh']
  dsimp only
  rw [hJ]
  dsimp only
  exact ⟨_, rfl, by simpa using hlen⟩

/-- The worked example of C3. -/
def exH : List (HKey × Rat) := [(.str "0", 1), (.str "1", -1)]

def exJ : List (QKey × Rat) := [(.str "(0,1)", -1)]

/-- C3 witness: `h = {"0": 1.0, "1": -1.0}` yields `num_variables = 2`. -/
theorem create_ising_num_variables_witness :
    (∃ r, (create_ising initServer exH exJ "").2 = Except.ok r ∧
      r.num_variables = exH.length) ∧
    ∃ r, (create_ising initServer exH exJ "").2 = Except.ok r ∧
      r.num_variables = 2 :=
  ⟨create_ising_num_variables initServer exH exJ "" [0, 1] [(FKey.pair 0 1, -1)]
      rfl (by decide) rfl,
   ⟨_, rfl, rfl⟩⟩

/-! ## C10: the num_variables failure happens after the store -/

theorem unpackAll_none_of_bad (fq : List (FKey × Rat))
    (hbad : ∃ p ∈ fq, unpackKey p.1 = none) : unpackAll fq = none := by
  induction fq with
  | nil => simp at hbad
  | cons q rest ih =>
      obtain ⟨p, hp, hnone⟩ := hbad
      rcases List.mem_cons.mp hp with h | h
      · subst h
        simp [unpackAll, hnone]
      · rcases hq : unpackKey q.1 with _ | ij
        · simp [unpackAll, hq]
        · simp [unpackAll, hq, ih ⟨p, h, hnone⟩]

/-- C10: a `Q` whose keys all normalize but in which some normalized key
cannot be unpacked into two components (a bare integer key, for example)
makes `create_qubo` raise in the `num_variables` computation — after the
problem record has already been inserted, so the call reports failure yet
the Registry's problem map has grown: creation is not atomic on this
path. -/
theorem create_qubo_fails_after_store (s : DWaveServer) (Q : List (QKey × Rat))
    (d : String) (fq : List (FKey × Rat)) (hfmt : formatQ Q = Except.ok fq)
    (hbad : ∃ p ∈ fq, unpackKey p.1 = none)
    (hfresh : dictGet s.problems s.nextUuid = none) :
    (create_qubo s Q d).2 = Except.error "cannot unpack non-sequence key" ∧
      (create_qubo s Q d).1.problems =
        dictInsert s.problems s.nextUuid
          { problem_id := s.nextUuid, pdata := .qubo fq, description := d } ∧
      dictGet (create_qubo s Q d).1.problems s.nextUuid =
        some { problem_id := s.nextUuid, pdata := .qubo fq, description := d } ∧
      (create_qubo s Q d).1.problems ≠ s.problems := by
  have hnv : numVariables fq = Except.error "cannot unpack non-sequence key" := by
    unfold numVariables
    rw [unpackAll_none_of_bad fq hbad]
  unfold create_qubo
  rw [hfmt]
  dsimp only
  rw [hnv]
  dsimp only
  refine ⟨rfl, rfl, ?_, ?_⟩
  · rw [dictGet_insert, if_pos rfl]
  · intro heq
    have h1 : dictGet (dictInsert s.problems s.nextUuid
        { problem_id := s.nextUuid, pdata := .qubo fq, description := d })
        s.nextUuid =
        some { problem_id := s.nextUuid, pdata := .qubo fq, description := d } := by
      rw [dictGet_insert, if_pos rfl]
    rw [heq, hfresh] at h1
    exact Option.noConfusion h1

/-- The bare-integer-key example of C10. -/
def badQ : List (QKey × Rat) := [(.int 5, 1)]

/-- C10 witness: `Q = {5: 1.0}` from the initial state — the call errors
but the problem is stored anyway. -/
theorem create_qubo_fails_after_store_witness :
    (create_qubo initServer badQ "").2 =
        Except.error "cannot unpack non-sequence key" ∧
      (create_qubo initServer badQ "").1.problems =
        dictInsert initServer.problems initServer.nextUuid
          { problem_id := initServer.nextUuid, pdata := .qubo [(FKey.int 5, 1)],
            description := "" } ∧
      dictGet (create_qubo initServer badQ "").1.problems initServer.nextUuid =
        some { problem_id := initServer.nextUuid, pdata := .qubo [(FKey.int 5, 1)],
               description := "" } ∧
      (create_qubo initServer badQ "").1.problems ≠ initServer.problems :=
  create_qubo_fails_after_store initServer badQ "" [(FKey.int 5, 1)] rfl
    ⟨(FKey.int 5, 1), List.mem_cons_self _ _, rfl⟩ rfl

/-! ## C7: key-normalization round trip -/

theorem dropWhile_eq_self_of_all {p : Char → Bool} (cs : List Char)
    (h : ∀ c ∈ cs, p c = false) : cs.dropWhile p = cs := by
  cases cs with
  | nil => rfl
  | cons c t =>
      rw [List.dropWhile_cons, if_neg]
      simp [h c (List.mem_cons_self _ _)]

/-- The character classes of a decimal digit character. -/
abbrev goodChar (c : Char) : Prop :=
  c.isDigit = true ∧ c.isWhitespace = false ∧ isParenChar c = false ∧
    c ≠ ',' ∧ c ≠ '-' ∧ c ≠ '+'

theorem digitChar_good (d : Nat) (hd : d < 10) : goodChar (Nat.digitChar d) := by
  interval_cases d <;> decide

theorem digitVal_digitChar (d : Nat) (hd : d < 10) :
    digitVal (Nat.digitChar d) = some d := by
  interval_cases d <;> decide

theorem renderNat_goodChars (n : Nat) : ∀ c ∈ renderNat n, goodChar c := by
  intro c hc
  unfold renderNat at hc
  by_cases hn : n = 0
  · rw [if_pos hn] at hc
    simp only [List.mem_singleton] at hc
    subst hc
    decide
  · rw [if_neg hn] at hc
    rw [List.mem_reverse] at hc
    obtain ⟨d, hd, hdc⟩ := List.mem_map.mp hc
    have hlt : d < 10 := Nat.digits_lt_base (by norm_num) hd
    rw [← hdc]
    exact digitChar_good d hlt

theorem renderNat_ne_nil (n : Nat) : renderNat n ≠ [] := by
  unfold renderNat
  by_cases hn : n = 0
  · simp [hn]
  · rw [if_neg hn]
    simp [Nat.digits_ne_nil_iff_ne_zero.mpr hn]

theorem foldl_mul_add (ds : List Nat) (a : Nat) :
    ds.reverse.foldl (fun n d => n * 10 + d) a =
      a * 10 ^ ds.length + Nat.ofDigits 10 ds := by
  induction ds generalizing a with
  | nil => simp
  | cons d t ih =>
      rw [List.reverse_cons, List.foldl_append, ih]
      simp only [List.foldl_cons, List.foldl_nil, Nat.ofDigits_cons,
        List.length_cons, Nat.cast_id]
      ring

theorem foldStep_digits (l : List Nat) (hl : ∀ d ∈ l, d < 10) (a : Nat) :
    (l.map Nat.digitChar).foldl
        (fun acc c => acc.bind fun n => (digitVal c).map fun d => n * 10 + d)
        (some a) =
      some (l.foldl (fun n d => n * 10 + d) a) := by
  induction l generalizing a with
  | nil => rfl
  | cons d t ih =>
      have hd : d < 10 := hl d (List.mem_cons_self _ _)
      simp only [List.map_cons, List.foldl_cons, Option.some_bind,
        digitVal_digitChar d hd, Option.map_some']
      exact ih (fun x hx => hl x (List.mem_cons.mpr (Or.inr hx))) (a * 10 + d)

theorem parseNatDigits_renderNat (n : Nat) : parseNatDigits (renderNat n) = some n := by
  by_cases hn : n = 0
  · subst hn
    rfl
  · have hlt : ∀ d ∈ Nat.digits 10 n, d < 10 :=
      fun d hd => Nat.digits_lt_base (by norm_num) hd
    have hrev : renderNat n = (Nat.digits 10 n).reverse.map Nat.digitChar := by
      unfold renderNat
      rw [if_neg hn, ← List.map_reverse]
    obtain ⟨c, t, hct⟩ := List.exists_cons_of_ne_nil (renderNat_ne_nil n)
    have hcons : parseNatDigits (renderNat n) =
        (renderNat n).foldl
          (fun acc c => acc.bind fun m => (digitVal c).map fun d => m * 10 + d)
          (some 0) := by
      rw [hct]
      rfl
    rw [hcons, hrev,
        foldStep_digits _ (fun d hd => hlt d (List.mem_reverse.mp hd)) 0,
        foldl_mul_add]
    simp [Nat.ofDigits_digits]

theorem pyParseInt_of_goodChars (cs : List Char) (hne : cs ≠ [])
    (hgood : ∀ c ∈ cs, goodChar c) :
    pyParseInt cs = (parseNatDigits cs).map fun n => Int.ofNat n := by
  have hws : ∀ c ∈ cs, Char.isWhitespace c = false := fun c hc => (hgood c hc).2.1
  unfold pyParseInt
  rw [dropWhile_eq_self_of_all cs hws,
      dropWhile_eq_self_of_all _ (fun c hc => hws c (List.mem_reverse.mp hc)),
      List.reverse_reverse]
  obtain ⟨c, t, hct⟩ := List.exists_cons_of_ne_nil hne
  subst hct
  have hc := hgood c (List.mem_cons_self _ _)
  dsimp only
  rw [if_neg hc.2.2.2.2.1, if_neg hc.2.2.2.2.2]

theorem pyParseInt_renderInt (i : Int) : pyParseInt (renderInt i) = some i := by
  unfold renderInt
  by_cases hi : i < 0
  · rw [if_pos hi]
    have hws : ∀ c ∈ '-' :: renderNat i.natAbs, c.isWhitespace = false := by
      intro c hc
      rcases List.mem_cons.mp hc with h | h
      · subst h; decide
      · exact (renderNat_goodChars _ c h).2.1
    unfold pyParseInt
    rw [dropWhile_eq_self_of_all _ hws,
        dropWhile_eq_self_of_all _ (fun c hc => hws c (List.mem_reverse.mp hc)),
        List.reverse_reverse]
    dsimp only
    rw [if_pos rfl, parseNatDigits_renderNat]
    simp only [Option.map_some', Option.some.injEq, Int.ofNat_eq_natCast]
    omega
  · rw [if_neg hi]
    rw [pyParseInt_of_goodChars _ (renderNat_ne_nil _) (renderNat_goodChars _),
        parseNatDigits_renderNat]
    simp only [Option.map_some', Option.some.injEq, Int.ofNat_eq_natCast]
    omega

theorem renderInt_chars (i : Int) :
    ∀ c ∈ renderInt i, isParenChar c = false ∧ c ≠ ',' := by
  intro c hc
  unfold renderInt at hc
  by_cases hi : i < 0
  · rw [if_pos hi] at hc
    rcases List.mem_cons.mp hc with h | h
    · subst h; exact ⟨by decide, by decide⟩
    · have hg := renderNat_goodChars i.natAbs c h
      exact ⟨hg.2.2.1, hg.2.2.2.1⟩
  · rw [if_neg hi] at hc
    have hg := renderNat_goodChars i.natAbs c hc
    exact ⟨hg.2.2.1, hg.2.2.2.1⟩

theorem splitComma_no_comma (as : List Char) (h : ∀ c ∈ as, c ≠ ',') :
    splitComma as = [as] := by
  induction as with
  | nil => rfl
  | cons c t ih =>
      have hc : c ≠ ',' := h c (List.mem_cons_self _ _)
      simp only [splitComma]
      rw [if_neg hc, ih (fun x hx => h x (List.mem_cons.mpr (Or.inr hx)))]

theorem splitComma_append (as bs : List Char) (h : ∀ c ∈ as, c ≠ ',') :
    splitComma (as ++ ',' :: bs) = as :: splitComma bs := by
  induction as with
  | nil => simp [splitComma]
  | cons c t ih =>
      have hc : c ≠ ',' := h c (List.mem_cons_self _ _)
      simp only [List.cons_append, splitComma, List.append_eq]
      rw [if_neg hc, ih (fun x hx => h x (List.mem_cons.mpr (Or.inr hx)))]

theorem stripParens_no_paren (cs : List Char)
    (h : ∀ c ∈ cs, isParenChar c = false) : stripParens cs = cs := by
  unfold stripParens
  rw [dropWhile_eq_self_of_all cs h,
      dropWhile_eq_self_of_all _ (fun c hc => h c (List.mem_reverse.mp hc)),
      List.reverse_reverse]

theorem stripParens_wrap (cs : List Char) (hne : cs ≠ [])
    (h : ∀ c ∈ cs, isParenChar c = false) :
    stripParens ('(' :: (cs ++ [')'])) = cs := by
  have h1 : List.dropWhile isParenChar ('(' :: (cs ++ [')'])) = cs ++ [')'] := by
    rw [List.dropWhile_cons, if_pos (by decide : isParenChar '(' = true)]
    obtain ⟨c, t, hct⟩ := List.exists_cons_of_ne_nil hne
    subst hct
    rw [List.cons_append, List.dropWhile_cons, if_neg]
    simp [h c (List.mem_cons_self _ _)]
  have h2 : (cs ++ [')']).reverse = ')' :: cs.reverse := by simp
  unfold stripParens
  rw [h1, h2, List.dropWhile_cons, if_pos (by decide : isParenChar ')' = true),
      dropWhile_eq_self_of_all _ (fun x hx => h x (List.mem_reverse.mp hx)),
      List.reverse_reverse]

theorem contains_comma_append (as bs : List Char) :
    ((as ++ ',' :: bs).contains ',') = true := by simp

theorem inner_no_paren (i j : Int) :
    ∀ c ∈ renderInt i ++ ',' :: renderInt j, isParenChar c = false := by
  intro c hc
  rcases List.mem_append.mp hc with h | h
  · exact (renderInt_chars i c h).1
  · rcases List.mem_cons.mp h with h' | h'
    · subst h'; decide
    · exact (renderInt_chars j c h').1

theorem commaPairOfString_strip (s : String) (i j : Int)
    (hstrip : stripParens s.toList = renderInt i ++ ',' :: renderInt j) :
    commaPairOfString s = Except.ok (i, j) := by
  unfold commaPairOfString
  rw [hstrip,
      splitComma_append _ _ (fun c hc => (renderInt_chars i c hc).2),
      splitComma_no_comma _ (fun c hc => (renderInt_chars j c hc).2)]
  dsimp only
  rw [pyParseInt_renderInt, pyParseInt_renderInt]

theorem textKey_toList (i j : Int) :
    (textKey i j).toList = renderInt i ++ ',' :: renderInt j := by
  show renderInt i ++ [','] ++ renderInt j = _
  rw [List.append_assoc]
  rfl

theorem textKeyParen_toList (i j : Int) :
    (textKeyParen i j).toList =
      '(' :: ((renderInt i ++ ',' :: renderInt j) ++ [')']) := by
  show '(' :: ((renderInt i ++ [','] ++ renderInt j) ++ [')']) = _
  rw [List.append_assoc (renderInt i) [','] (renderInt j)]
  rfl

theorem commaPair_textKey (i j : Int) :
    commaPairOfString (textKey i j) = Except.ok (i, j) := by
  apply commaPairOfString_strip
  rw [textKey_toList]
  exact stripParens_no_paren _ (inner_no_paren i j)

theorem commaPair_textKeyParen (i j : Int) :
    commaPairOfString (textKeyParen i j) = Except.ok (i, j) := by
  apply commaPairOfString_strip
  rw [textKeyParen_toList]
  exact stripParens_wrap _ (by simp) (inner_no_paren i j)

theorem normalizeQKey_textKey (i j : Int) :
    normalizeQKey (QKey.str (textKey i j)) = Except.ok (FKey.pair i j) := by
  have hcont : ((textKey i j).toList.contains ',') = true := by
    rw [textKey_toList]
    exact contains_comma_append _ _
  unfold normalizeQKey
  dsimp only
  rw [if_pos hcont, commaPair_textKey]
  rfl

theorem normalizeQKey_textKeyParen (i j : Int) :
    normalizeQKey (QKey.str (textKeyParen i j)) = Except.ok (FKey.pair i j) := by
  have hcont : ((textKeyParen i j).toList.contains ',') = true := by
    rw [textKeyParen_toList]
    simp
  unfold normalizeQKey
  dsimp only
  rw [if_pos hcont, commaPair_textKeyParen]
  rfl

/-- C7: for every coefficient `v` and integer pair `(i, j)`, the textual
key forms `"i,j"` and `"(i,j)"` and the native pair key produce the very
same `create_qubo` outcome — in particular identical stored normalized
coefficient maps and identical `num_variables`. -/
theorem create_qubo_key_roundtrip (s : DWaveServer) (i j : Int) (v : Rat)
    (d : String) :
    create_qubo s [(QKey.str (textKey i j), v)] d =
      create_qubo s [(QKey.pair i j, v)] d ∧
    create_qubo s [(QKey.str (textKeyParen i j), v)] d =
      create_qubo s [(QKey.pair i j, v)] d ∧
    ∃ fq, formatQ [(QKey.str (textKey i j), v)] = Except.ok fq ∧
      formatQ [(QKey.str (textKeyParen i j), v)] = Except.ok fq ∧
      formatQ [(QKey.pair i j, v)] = Except.ok fq := by
  have hf1 : formatQ [(QKey.str (textKey i j), v)] =
      Except.ok [(FKey.pair i j, v)] := by
    unfold formatQ formatQAux
    rw [normalizeQKey_textKey]
    rfl
  have hf2 : formatQ [(QKey.str (textKeyParen i j), v)] =
      Except.ok [(FKey.pair i j, v)] := by
    unfold formatQ formatQAux
    rw [normalizeQKey_textKeyParen]
    rfl
  have hf3 : formatQ [(QKey.pair i j, v)] = Except.ok [(FKey.pair i j, v)] := rfl
  refine ⟨?_, ?_, [(FKey.pair i j, v)], hf1, hf2, hf3⟩
  · unfold create_qubo
    rw [hf1, hf3]
  · unfold create_qubo
    rw [hf2, hf3]
